import Mathlib

/-!
Verification of the academic-requirement reasoning engine of the
`ualberta-roadmap` repository (`apps/api/app/services/prerequisite_service.py`
and `apps/api/app/services/requirement_service.py`).

The Python services are shallowly embedded as executable Lean functions.
Conventions of the embedding:

* Python strings are `String`; `str.upper()` / `str.strip()` / sorting are
  modelled by `upperStr` / `trimStr` / `sortStr` below (code-point-wise, as in
  CPython for the ASCII data this service handles).
* Python `int` is `Int` (or `Nat` where the source can only produce
  non-negative values), Python `float` arithmetic is modelled exactly over `ℚ`
  (every operation performed by the source on these numbers is exact at the
  modelled scales).
* A Python `set` of strings is modelled as a duplicate-free `List String`
  (`(·.map normCode).dedup`); only membership, iteration, intersection,
  difference and size are used by the source, all of which are
  order-insensitive here (ordered outputs are always passed through `sorted`).
* The database is modelled as an in-memory catalog (`List CourseRec`,
  `List Program`); `scalar_one_or_none` on a unique-indexed column is
  `List.find?`.
* `raise` is modelled with `Except PyErr`; `PyErr.valueError` covers
  `ValueError` and its subclasses (pydantic `ValidationError` included),
  `PyErr.typeError` covers `TypeError`.
-/

/-- Model of `str.upper()` (code-point-wise uppercasing). -/
def upperStr (s : String) : String := ⟨s.data.map Char.toUpper⟩

/-- Model of `str.strip()` (drop whitespace from both ends). -/
def trimStr (s : String) : String :=
  ⟨((s.data.dropWhile Char.isWhitespace).reverse.dropWhile Char.isWhitespace).reverse⟩

/-- Model of the normalization `c.upper().strip()` applied to course codes. -/
def normCode (s : String) : String := trimStr (upperStr s)

/-- Code-point lexicographic strict order on character lists (the order CPython
uses to compare `str` values). -/
def ltCh : List Char → List Char → Bool
  | [], [] => false
  | [], _ :: _ => true
  | _ :: _, [] => false
  | a :: as, b :: bs =>
      a.toNat < b.toNat || (a.toNat == b.toNat && ltCh as bs)

/-- Non-strict string order used to model Python `sorted` on strings. -/
def leStr (a b : String) : Bool := ltCh a.data b.data || a.data == b.data

/-- Model of Python `sorted` on a list of strings (stable; for a total preorder
the result agrees with any stable sort, so `insertionSort` is faithful). -/
def sortStr (l : List String) : List String :=
  l.insertionSort (fun a b => leStr a b = true)

/-- Substring containment on character lists: does `s` start with `pat`? -/
def prefixCh : List Char → List Char → Bool
  | [], _ => true
  | _ :: _, [] => false
  | a :: as, b :: bs => a == b && prefixCh as bs

/-- Model of Python `pat in s` for strings (substring containment). -/
def containsSub (pat : List Char) : List Char → Bool
  | [] => prefixCh pat []
  | b :: bs => prefixCh pat (b :: bs) || containsSub pat bs

/-- Model of Python `s.isdigit()` for ASCII data: non-empty and all digits. -/
def isDigitStr (s : String) : Bool := !s.data.isEmpty && s.data.all Char.isDigit

/-- Numeric value of a digit string, modelling `int(s)` for `s.isdigit()`. -/
def natOfDigits (s : String) : Nat :=
  s.data.foldl (fun n c => 10 * n + (c.toNat - 48)) 0

mutual

/-- Model of a prerequisite-formula JSON value (`prerequisiteFormula` column).
`empty` is a falsy value (`{}`; `None` behaves identically in evaluation).
`node typeTag code conditions` is a non-empty dict: `typeTag` is
`formula.get("type", "")` (a missing `type` key is the empty string), `code`
is the value of the `code` key (a missing key and a present `""` are both
`CodeVal.cstr ""`, which the source treats identically), `conditions` is
`formula.get("conditions", [])`. -/
inductive Formula where
  | empty : Formula
  | node : String → CodeVal → List Formula → Formula

/-- Model of the value found under the `code` key of a `COURSE` node: a string
(`cstr`), a nested formula dict (`cdict`), or (`cother truthy hashable id`) a
JSON value that is neither — a number, boolean or null (hashable) or an array
(unhashable). `truthy` is the value's Python truthiness, `hashable` whether
`hash()` succeeds on it, and `id` its Python equality class (distinct values
get distinct ids; truthiness and hashability are constant on an equality
class), so that `set()` deduplication is modelled faithfully. -/
inductive CodeVal where
  | cstr : String → CodeVal
  | cdict : Formula → CodeVal
  | cother : Bool → Bool → Nat → CodeVal

end

/-- Truthiness of a formula value (`if not formula:` / `if course.prerequisite_formula:`). -/
def formulaTruthy : Formula → Bool
  | .empty => false
  | .node _ _ _ => true

/-- Truthiness of a `code` value (`if code:`): a string is truthy iff
non-empty, a dict iff non-empty, and a `cother` value carries its own
truthiness. -/
def codeTruthy : CodeVal → Bool
  | .cstr s => !(s = "")
  | .cdict f => formulaTruthy f
  | .cother t _ _ => t

/-- Whether `hash()` succeeds on a `code` value: strings are hashable, dicts
never are, and a `cother` value carries its own hashability (numbers, booleans
and null are hashable; arrays are not). -/
def isHashable : CodeVal → Bool
  | .cstr _ => true
  | .cdict _ => false
  | .cother _ h _ => h

mutual

/-- Embedding of `_evaluate_formula` (prerequisite_service.py, lines 173-247):
recursively evaluate a prerequisite formula against a completed-course set,
returning `(is_valid, missing_courses, satisfied_courses)`. -/
def _evaluate_formula : Formula → List String → Bool × List String × List String
  | .empty, _ => (true, [], [])
  | .node t code conds, completed =>
    let tt := upperStr t
    if tt = "COURSE" then
      match code with
      | .cdict f => _evaluate_formula f completed
      | .cstr s =>
        if upperStr s ∈ completed then (true, [], [s]) else (false, [s], [])
      | .cother _ _ _ => (false, [], [])
    else if tt = "AND" then evalAnd conds completed
    else if tt = "OR" then evalOr conds completed
    else (false, [], [])

/-- The `AND` loop of `_evaluate_formula`: every condition is evaluated, all
missing/satisfied lists are concatenated, validity is the conjunction. -/
def evalAnd : List Formula → List String → Bool × List String × List String
  | [], _ => (true, [], [])
  | c :: cs, completed =>
    let r := _evaluate_formula c completed
    let rest := evalAnd cs completed
    (r.1 && rest.1, r.2.1 ++ rest.2.1, r.2.2 ++ rest.2.2)

/-- The `OR` loop of `_evaluate_formula`: the first satisfied condition returns
immediately with its satisfied list; otherwise all missing lists are
concatenated. -/
def evalOr : List Formula → List String → Bool × List String × List String
  | [], _ => (false, [], [])
  | c :: cs, completed =>
    let r := _evaluate_formula c completed
    if r.1 then (true, [], r.2.2)
    else
      match evalOr cs completed with
      | (true, m, s) => (true, m, s)
      | (false, m, _) => (false, r.2.1 ++ m, [])

end


/-- Strong induction on the size of a formula, used for proofs that recurse
both through `conditions` lists and through nested `code` dicts. -/
theorem formula_strong_ind (P : Formula → Prop)
    (h : ∀ f, (∀ g, sizeOf g < sizeOf f → P g) → P f) : ∀ f, P f := by
  have aux : ∀ n f, sizeOf f < n → P f := by
    intro n
    induction n with
    | zero => intro f hf; omega
    | succ n ih => intro f hf; exact h f (fun g hg => ih g (by omega))
  intro f
  exact aux (sizeOf f + 1) f (by omega)

mutual

/-- Structural equality of formula values, modelling Python `==` on the
embedded JSON dicts (dict equality is key/value-wise, i.e. structural here). -/
def beqFormula : Formula → Formula → Bool
  | .empty, .empty => true
  | .node t code conds, .node t2 code2 conds2 =>
    t == t2 && beqCode code code2 && beqFormulaList conds conds2
  | _, _ => false

/-- Structural equality of `code` values: string equality, dict equality, and
equality-class comparison for other values. -/
def beqCode : CodeVal → CodeVal → Bool
  | .cstr a, .cstr b => a == b
  | .cdict f, .cdict g => beqFormula f g
  | .cother t h i, .cother t2 h2 i2 => t == t2 && h == h2 && i == i2
  | _, _ => false

/-- `beqFormula` over `conditions` lists. -/
def beqFormulaList : List Formula → List Formula → Bool
  | [], [] => true
  | a :: as, b :: bs => beqFormula a b && beqFormulaList as bs
  | _, _ => false

end

/-- `beqFormulaList` decides list equality, given that `beqFormula` decides
equality of the members. -/
theorem beqFormulaList_iff (cs : List Formula)
    (key : ∀ x ∈ cs, ∀ g, beqFormula x g = true ↔ x = g) :
    ∀ ds, beqFormulaList cs ds = true ↔ cs = ds := by
  induction cs with
  | nil => intro ds; cases ds <;> simp [beqFormulaList]
  | cons x xs ih =>
    intro ds
    cases ds with
    | nil => simp [beqFormulaList]
    | cons y ys =>
      have h1 := key x (by simp) y
      have h2 := ih (fun z hz => key z (by simp [hz])) ys
      simp [beqFormulaList, h1, h2]

/-- `beqFormula` decides equality of formulas. -/
theorem beqFormula_iff : ∀ a b : Formula, beqFormula a b = true ↔ a = b := by
  apply formula_strong_ind (fun a => ∀ b, beqFormula a b = true ↔ a = b)
  intro a ih b
  match a, b with
  | .empty, .empty => simp [beqFormula]
  | .empty, .node t2 code2 conds2 => simp [beqFormula]
  | .node t code conds, .empty => simp [beqFormula]
  | .node t code conds, .node t2 code2 conds2 =>
    have key : ∀ x ∈ conds, ∀ g, beqFormula x g = true ↔ x = g := by
      intro x hx
      have : sizeOf x < sizeOf (Formula.node t code conds) := by
        have := List.sizeOf_lt_of_mem hx
        simp only [Formula.node.sizeOf_spec]
        omega
      exact ih x this
    have hlist := beqFormulaList_iff conds key conds2
    cases code with
    | cstr s => cases code2 <;> simp [beqFormula, beqCode, hlist, and_assoc]
    | cdict f =>
      have hf : ∀ g2, beqFormula f g2 = true ↔ f = g2 := by
        intro g2
        have : sizeOf f < sizeOf (Formula.node t (.cdict f) conds) := by
          simp only [Formula.node.sizeOf_spec, CodeVal.cdict.sizeOf_spec]
          omega
        exact ih f this g2
      cases code2 <;> simp [beqFormula, beqCode, hlist, hf, and_assoc]
    | cother ct ch ci => cases code2 <;> simp [beqFormula, beqCode, hlist, and_assoc]

/-- `beqCode` decides equality of `code` values. -/
theorem beqCode_iff : ∀ a b : CodeVal, beqCode a b = true ↔ a = b := by
  intro a b
  match a, b with
  | .cstr x, .cstr y => simp [beqCode]
  | .cstr x, .cdict g => simp [beqCode]
  | .cstr x, .cother t h i => simp [beqCode]
  | .cdict f, .cstr y => simp [beqCode]
  | .cdict f, .cdict g => simpa [beqCode] using beqFormula_iff f g
  | .cdict f, .cother t h i => simp [beqCode]
  | .cother t h i, .cstr y => simp [beqCode]
  | .cother t h i, .cdict g => simp [beqCode]
  | .cother t h i, .cother t2 h2 i2 => simp [beqCode, and_assoc]

instance : DecidableEq Formula :=
  fun a b => decidable_of_iff _ (beqFormula_iff a b)

instance : DecidableEq CodeVal :=
  fun a b => decidable_of_iff _ (beqCode_iff a b)

mutual

/-- The collection loop of `_extract_course_codes` (lines 250-273): the list
`codes` after the recursion, before `list(set(codes))`. A truthy `code` value
of a `COURSE` node is appended whatever its type; `AND`/`OR` recurse into the
conditions; anything else contributes nothing. -/
def collectCodes : Formula → List CodeVal
  | .empty => []
  | .node t code conds =>
    let tt := upperStr t
    if tt = "COURSE" then
      if codeTruthy code then [code] else []
    else if tt = "AND" ∨ tt = "OR" then collectCodesList conds
    else []

/-- Recursion of `collectCodes` over a `conditions` list. -/
def collectCodesList : List Formula → List CodeVal
  | [] => []
  | c :: cs => collectCodes c ++ collectCodesList cs

end

deriving instance DecidableEq for Except

/-- The string content of a `code` value, `none` for non-strings. -/
def strOfCode : CodeVal → Option String
  | .cstr s => some s
  | _ => none

/-- Embedding of `_extract_course_codes`: `list(set(codes))`. `set()` hashes
every collected element, so a collected unhashable value — a non-empty dict,
or an unhashable `cother` such as a non-empty array — raises `TypeError`;
otherwise the result is the deduplicated list of the collected values, which
keeps any hashable non-string code (a JSON number, `true`) exactly as the
source does. Python set order is unspecified; `List.dedup` fixes one
representative order, which no caller depends on. -/
def _extract_course_codes (f : Formula) : Except Unit (List CodeVal) :=
  let codes := collectCodes f
  if codes.all isHashable then
    .ok codes.dedup
  else .error ()


/-- Value category of `_format_formula_description`: the function's Python
return value is either a `str` or (through `formula.get("code", ...)` on a
`COURSE` node whose `code` is not a string) a non-string value. -/
inductive FmtVal where
  | fstr : String → FmtVal
  | fother : FmtVal
deriving DecidableEq

/-- Python `x in d` for a description element: substring test on a string. On
a dict or array value the connective strings `" AND "`/`" OR "` are never
members (formula dict keys are `type`, `code`, `conditions`), so the test is
`False` and the later `join` raises `TypeError`; on a number/boolean/null the
`in` test itself raises `TypeError`. Either way the observable outcome of the
enclosing rendering is the same `TypeError`, which `fmtContains = false`
followed by the failing `joinFmt` models. -/
def fmtContains (pat : String) : FmtVal → Bool
  | .fstr s => containsSub pat.data s.data
  | .fother => false

/-- Parenthesization step of `_format_formula_description`:
`f"({d})" if pat in d else d`. -/
def fmtParen (pat : String) (v : FmtVal) : FmtVal :=
  if fmtContains pat v then
    match v with
    | .fstr s => .fstr ("(" ++ s ++ ")")
    | .fother => .fother
  else v

/-- Model of `sep.join(elems)`: raises `TypeError` when a non-string element is
present, otherwise intercalates. -/
def joinFmt (sep : String) (l : List FmtVal) : Except Unit String :=
  match l with
  | [] => .ok ""
  | [v] =>
    match v with
    | .fstr s => .ok s
    | .fother => .error ()
  | v :: rest =>
    match v, joinFmt sep rest with
    | .fstr s, .ok r => .ok (s ++ sep ++ r)
    | _, _ => .error ()

mutual

/-- Embedding of `_format_formula_description` (lines 276-305). `COURSE`
returns `formula.get("code", "Unknown course")` (a non-string `code` value is
returned as-is); `AND`/`OR` render every condition, return a single rendering
unchanged, and otherwise join with the connective, parenthesizing mixed
sub-renderings; joining a non-string rendering raises `TypeError`. -/
def _format_formula_description : Formula → Except Unit FmtVal
  | .empty => .ok (.fstr "Unknown prerequisite formula")
  | .node t code conds =>
    let tt := upperStr t
    if tt = "COURSE" then
      match code with
      | .cstr s => .ok (.fstr s)
      | .cdict _ => .ok .fother
      | .cother _ _ _ => .ok .fother
    else if tt = "AND" then
      match fmtList conds with
      | .error e => .error e
      | .ok descriptions =>
        match descriptions with
        | [d] => .ok d
        | _ => (joinFmt " AND " (descriptions.map (fmtParen " OR "))).map .fstr
    else if tt = "OR" then
      match fmtList conds with
      | .error e => .error e
      | .ok descriptions =>
        match descriptions with
        | [d] => .ok d
        | _ => (joinFmt " OR " (descriptions.map (fmtParen " AND "))).map .fstr
    else .ok (.fstr "Unknown prerequisite formula")

/-- Rendering of a `conditions` list, in order. -/
def fmtList : List Formula → Except Unit (List FmtVal)
  | [] => .ok []
  | c :: cs =>
    match _format_formula_description c, fmtList cs with
    | .ok v, .ok vs => .ok (v :: vs)
    | .error e, _ => .error e
    | _, .error e => .error e

end


/-- Error kinds raised by the services: `valueError` covers `ValueError` and
its subclasses (pydantic `ValidationError` included), `typeError` covers
`TypeError`. Only `ValueError` is ever caught by the services. -/
inductive PyErr where
  | valueError : PyErr
  | typeError : PyErr
deriving DecidableEq

/-- Model of a row of the `courses` table (models/course.py). `credits` is an
unconstrained SQL `Integer`; `prerequisite_formula` is the JSON column, with
`Formula.empty` standing for SQL `NULL` (both are falsy and the source only
tests truthiness). -/
structure CourseRec where
  code : String
  title : String
  credits : Int
  level : String
  subject : String
  typically_offered : List String
  prerequisite_formula : Formula

/-- An in-memory snapshot of the `courses` table. The `code` column carries a
unique index, but no theorem below assumes uniqueness. -/
abbrev Catalog := List CourseRec

/-- Model of `select(Course).where(Course.code == code)` + `scalar_one_or_none()`. -/
def lookupCourse (cat : Catalog) (code : String) : Option CourseRec :=
  cat.find? (fun c => c.code == code)

/-- Embedding of `PrerequisiteCheckResult` (schemas/services.py). -/
structure PrerequisiteCheckResult where
  is_valid : Bool
  missing_courses : List String
  satisfied_prerequisites : List String
  formula_description : String
deriving DecidableEq

/-- Embedding of `check_prerequisites` (prerequisite_service.py, lines 20-71):
raises `ValueError` when the course is absent; returns a trivial result when
the formula is falsy; otherwise evaluates the formula against the normalized
completed set and sorts the resulting lists. A non-string description (nested
`code` dict reaching the top of `_format_formula_description`) fails pydantic
validation of `PrerequisiteCheckResult.formula_description`, which raises
`ValidationError`, a `ValueError` subclass. -/
def check_prerequisites (cat : Catalog) (course_code : String)
    (completed_courses : List String) : Except PyErr PrerequisiteCheckResult :=
  match lookupCourse cat course_code with
  | none => .error .valueError
  | some course =>
    if formulaTruthy course.prerequisite_formula then
      let completed_set := (completed_courses.map normCode).dedup
      let r := _evaluate_formula course.prerequisite_formula completed_set
      match _format_formula_description course.prerequisite_formula with
      | .error _ => .error .typeError
      | .ok (.fstr description) =>
        .ok ⟨r.1, sortStr r.2.1, sortStr r.2.2, description⟩
      | .ok .fother => .error .valueError
    else
      .ok ⟨true, [], [], "No prerequisites required"⟩

/-- Embedding of `PrerequisiteNode` (schemas/services.py): a node of the
prerequisite tree. `formula` keeps the raw formula of the node's own course,
`Formula.empty` standing for `None`. -/
inductive PrerequisiteNode where
  | mk : String → String → Nat → List PrerequisiteNode → Formula → PrerequisiteNode

/-- Course code of a tree node. -/
def PrerequisiteNode.course_code : PrerequisiteNode → String
  | .mk c _ _ _ _ => c

/-- Title of a tree node. -/
def PrerequisiteNode.title : PrerequisiteNode → String
  | .mk _ t _ _ _ => t

/-- Depth recorded in a tree node. -/
def PrerequisiteNode.depth : PrerequisiteNode → Nat
  | .mk _ _ d _ _ => d

/-- Child nodes of a tree node. -/
def PrerequisiteNode.prerequisites : PrerequisiteNode → List PrerequisiteNode
  | .mk _ _ _ ps _ => ps

/-- Formula recorded in a tree node (`Formula.empty` = `None`). -/
def PrerequisiteNode.formula : PrerequisiteNode → Formula
  | .mk _ _ _ _ f => f

mutual

/-- Embedding of `get_prerequisite_tree` (prerequisite_service.py, lines
74-147). At the depth/visited cutoff it returns a bare leaf (or raises
`ValueError` if the course is gone); otherwise it resolves the course, marks
it visited, extracts the referenced codes of a truthy formula (`TypeError`
from `_extract_course_codes` propagates uncaught) and recurses into each,
skipping children that raise `ValueError`. Passing `course_code :: visited`
to every child models `visited.copy()` handed to each recursive call. -/
def get_prerequisite_tree (cat : Catalog) (course_code : String)
    (depth max_depth : Nat) (visited : List String) :
    Except PyErr PrerequisiteNode :=
  if _h : depth ≥ max_depth ∨ course_code ∈ visited then
    match lookupCourse cat course_code with
    | some row => .ok (.mk row.code row.title depth [] .empty)
    | none => .error .valueError
  else
    match lookupCourse cat course_code with
    | none => .error .valueError
    | some course =>
      if formulaTruthy course.prerequisite_formula then
        match _extract_course_codes course.prerequisite_formula with
        | .error _ => .error .typeError
        | .ok prerequisite_codes =>
          match tree_children cat prerequisite_codes (depth + 1) max_depth
              (course_code :: visited) with
          | .error e => .error e
          | .ok prerequisite_nodes =>
            .ok (.mk course.code course.title depth prerequisite_nodes
                  course.prerequisite_formula)
      else
        .ok (.mk course.code course.title depth [] course.prerequisite_formula)
termination_by (max_depth - depth, 0, 0)
decreasing_by
  apply Prod.Lex.left
  omega

/-- The recursion loop of `get_prerequisite_tree` over the extracted codes:
a child raising `ValueError` is skipped (`except ValueError: pass`), any other
error propagates. The source passes each extracted value to the recursive call
uniformly; for a non-string value the call's `Course.code == course_code`
lookups match no row of the string `code` column (in both the cutoff and the
full branch), so that call raises `ValueError` and is skipped — modelled
directly as the skip in the non-string arm. -/
def tree_children (cat : Catalog) (codes : List CodeVal)
    (depth max_depth : Nat) (visited : List String) :
    Except PyErr (List PrerequisiteNode) :=
  match codes with
  | [] => .ok []
  | p :: ps =>
    match p with
    | .cstr s =>
      match get_prerequisite_tree cat s depth max_depth visited with
      | .ok n =>
        match tree_children cat ps depth max_depth visited with
        | .ok ns => .ok (n :: ns)
        | .error e => .error e
      | .error .valueError => tree_children cat ps depth max_depth visited
      | .error .typeError => .error .typeError
    | _ => tree_children cat ps depth max_depth visited
termination_by (max_depth - depth, 1, codes.length)
decreasing_by
  all_goals first
    | exact Prod.Lex.right _ (Prod.Lex.left _ _ (by omega))
    | exact Prod.Lex.right _ (Prod.Lex.right _ (by simp only [List.length_cons]; omega))

end

/-- Model of a row of the `requirements` table (models/program.py). Nullable
integer columns are `Option Int`; `courses` and `level_filter` are JSON-encoded
string lists, `NULL` and `[]` being indistinguishable to the source (it only
applies `or []` and truthiness). -/
structure Requirement where
  id : String
  name : String
  requirement_type : String
  courses : List String
  credits_needed : Option Int
  choose_count : Option Int
  level_filter : List String
  subject_filter : Option String
  order_index : Int

/-- Model of an entry of the `exclusions` list of `special_rules`: a dict rule
`{course, excludes}` (missing keys defaulting to `""` / `[]`), or a non-dict
entry which the source skips. -/
inductive ExclusionItem where
  | rule : String → List String → ExclusionItem
  | nonDict : ExclusionItem

/-- Model of an entry of the `substitutions` list: a dict `{from, to}` (missing
keys defaulting to `""`), or a non-dict entry which the source skips. -/
inductive SubstitutionItem where
  | rule : String → String → SubstitutionItem
  | nonDict : SubstitutionItem

/-- Model of an entry of the `additional_requirements` list: a string, or a
non-string entry which the source skips. -/
inductive AdditionalItem where
  | str : String → AdditionalItem
  | nonStr : AdditionalItem

/-- Model of the `specialRules` JSON column: the three lists, each defaulting
to `[]` when the key is missing. -/
structure SpecialRules where
  exclusions : List ExclusionItem
  substitutions : List SubstitutionItem
  additional_requirements : List AdditionalItem

/-- The empty `specialRules` dict (also the `or {}` default). -/
def SpecialRules.emptyRules : SpecialRules := ⟨[], [], []⟩

/-- Model of a row of the `programs` table together with its loaded
`program_requirements` relationship (in database order, which the source
iterates as-is). `special_rules` is `none` for SQL `NULL`. -/
structure Program where
  code : String
  name : String
  total_credits : Int
  program_requirements : List Requirement
  special_rules : Option SpecialRules

/-- Model of `select(Program).where(Program.code == code)` + `scalar_one_or_none()`. -/
def lookupProgram (programs : List Program) (code : String) : Option Program :=
  programs.find? (fun p => p.code == code)

/-- Embedding of `RequirementProgress` (schemas/services.py). Percentages are
modelled exactly over `ℚ` (the source computes them in `float`). -/
structure RequirementProgress where
  requirement_id : String
  requirement_name : String
  requirement_type : String
  required_count : Option Int
  completed_count : Int
  is_satisfied : Bool
  completed_courses : List String
  remaining_courses : List String
  progress_percentage : ℚ

/-- Model of the lookup `completed_courses_map.get(code)`: the dict is built
as `{c.code: c for c in objs}`, later duplicates overwriting earlier ones,
hence the reversed search. -/
def mapLookup (objs : List CourseRec) (code : String) : Option CourseRec :=
  objs.reverse.find? (fun c => c.code == code)

/-- Filter test of the `LEVEL_REQUIREMENT` branch: a truthy (non-empty)
`level_filter` requires `course.level` to be listed; a truthy (present,
non-empty) `subject_filter` requires equality of `course.subject`. -/
def matchesLevelSubject (level_filters : List String) (subject_filter : Option String)
    (course : CourseRec) : Bool :=
  (decide (level_filters = []) || decide (course.level ∈ level_filters)) &&
  (match subject_filter with
   | none => true
   | some s => decide (s = "") || decide (course.subject = s))

/-- Embedding of `_validate_single_requirement` (requirement_service.py, lines
345-469), dispatching on the `requirement_type` string. `completed_set` is the
normalized completed set; `completed_courses_map` is the list of catalog rows
fetched for it (the `db` session parameter of the source is unused there). -/
def _validate_single_requirement (req : Requirement) (completed_set : List String)
    (completed_courses_map : List CourseRec) : RequirementProgress :=
  if req.requirement_type = "REQUIRED" then
    let required_courses := (req.courses.map upperStr).dedup
    let completed_in_req := required_courses.filter (· ∈ completed_set)
    let remaining := required_courses.filter (· ∉ completed_set)
    let required_count : Int := required_courses.length
    let completed_count : Int := completed_in_req.length
    let is_satisfied := decide (remaining.length = 0)
    let progress : ℚ :=
      if required_count > 0 then (completed_count : ℚ) / (required_count : ℚ) * 100
      else 100
    ⟨req.id, req.name, req.requirement_type, some required_count, completed_count,
      is_satisfied, sortStr completed_in_req, sortStr remaining, progress⟩
  else if req.requirement_type = "CHOICE" then
    let choice_courses := (req.courses.map upperStr).dedup
    let completed_in_req := choice_courses.filter (· ∈ completed_set)
    let remaining := choice_courses.filter (· ∉ completed_set)
    let required_count : Int :=
      match req.choose_count with
      | none => 1
      | some n => if n = 0 then 1 else n
    let completed_count : Int := completed_in_req.length
    let is_satisfied := decide (completed_count ≥ required_count)
    let progress : ℚ :=
      if required_count > 0 then
        min ((completed_count : ℚ) / (required_count : ℚ) * 100) 100
      else 100
    ⟨req.id, req.name, req.requirement_type, some required_count, completed_count,
      is_satisfied, sortStr completed_in_req, sortStr remaining, progress⟩
  else if req.requirement_type = "LEVEL_REQUIREMENT" then
    let level_filters := req.level_filter
    let subject_filter := req.subject_filter
    let credits_needed := req.credits_needed.getD 0
    let matching := completed_set.filterMap (fun code =>
      match mapLookup completed_courses_map code with
      | none => none
      | some course =>
        if matchesLevelSubject level_filters subject_filter course then some course
        else none)
    let matching_credits : Int := (matching.map (·.credits)).sum
    let matching_courses := matching.map (·.code)
    let is_satisfied := decide (matching_credits ≥ credits_needed)
    let progress : ℚ :=
      if credits_needed > 0 then
        min ((matching_credits : ℚ) / (credits_needed : ℚ) * 100) 100
      else 100
    ⟨req.id, req.name, req.requirement_type, some credits_needed, matching_credits,
      is_satisfied, sortStr matching_courses, [], progress⟩
  else
    let completed_count : Int := completed_set.length
    let is_satisfied := decide (completed_count > 0)
    ⟨req.id, req.name, req.requirement_type, none, completed_count, is_satisfied,
      sortStr completed_set, [], if is_satisfied then 100 else 0⟩

/-- Embedding of `RequirementValidationResult` (schemas/services.py). -/
structure RequirementValidationResult where
  program_code : String
  program_name : String
  total_credits_required : Int
  total_credits_completed : Int
  requirements : List RequirementProgress
  overall_progress : ℚ
  is_complete : Bool

/-- Embedding of `validate_requirements` (requirement_service.py, lines
24-95): raises `ValueError` for an unknown program, otherwise validates every
requirement in relationship order and aggregates overall progress. -/
def validate_requirements (cat : Catalog) (programs : List Program)
    (program_code : String) (completed_courses : List String) :
    Except PyErr RequirementValidationResult :=
  match lookupProgram programs program_code with
  | none => .error .valueError
  | some program =>
    let completed_set := (completed_courses.map normCode).dedup
    let completed_course_objects := cat.filter (fun c => c.code ∈ completed_set)
    let total_credits_completed := (completed_course_objects.map (·.credits)).sum
    let requirements_progress := program.program_requirements.map
      (fun req => _validate_single_requirement req completed_set completed_course_objects)
    let satisfied_count := requirements_progress.countP (·.is_satisfied)
    let total_requirements := program.program_requirements.length
    let overall_progress : ℚ :=
      if total_requirements > 0 then
        (satisfied_count : ℚ) / (total_requirements : ℚ) * 100
      else 0
    let is_complete := requirements_progress.all (·.is_satisfied)
    .ok ⟨program.code, program.name, program.total_credits, total_credits_completed,
      requirements_progress, overall_progress, is_complete⟩

/-- Embedding of `_course_satisfies_requirement` (requirement_service.py,
lines 472-521): per-type test whether a candidate course would satisfy a
requirement; unknown types never match. -/
def _course_satisfies_requirement (course : CourseRec) (req : Requirement)
    (completed_set : List String) : Bool :=
  if req.requirement_type = "REQUIRED" then
    decide (upperStr course.code ∈ req.courses.map upperStr) &&
      !decide (upperStr course.code ∈ completed_set)
  else if req.requirement_type = "CHOICE" then
    decide (upperStr course.code ∈ req.courses.map upperStr) &&
      !decide (upperStr course.code ∈ completed_set)
  else if req.requirement_type = "LEVEL_REQUIREMENT" then
    matchesLevelSubject req.level_filter req.subject_filter course &&
      !decide (upperStr course.code ∈ completed_set)
  else if req.requirement_type = "ELECTIVE" then
    !decide (upperStr course.code ∈ completed_set)
  else false

/-- Embedding of `AvailableCourse` (schemas/services.py). `priority_score`
models the source's `float` score exactly over `ℚ`. -/
structure AvailableCourse where
  course_code : String
  title : String
  credits : Int
  level : String
  prerequisites_met : Bool
  satisfies_requirements : List String
  priority_score : ℚ
  typically_offered : List String

/-- The `try: check_prerequisites ... except ValueError: prerequisites_met =
False` step of `get_next_available_courses` (lines 222-231): `ValueError`
(including its pydantic subclass) is absorbed into `false`; `TypeError` is not
caught and propagates. -/
def prereqMetFor (cat : Catalog) (completed : List String) (code : String) :
    Except PyErr Bool :=
  match check_prerequisites cat code completed with
  | .ok r => .ok r.is_valid
  | .error .valueError => .ok false
  | .error .typeError => .error .typeError

/-- The per-requirement loop of `get_next_available_courses` (lines 234-246):
accumulates the satisfied requirement ids and the 10/5/2 score contributions
in requirement order. -/
def scoreFold (reqs : List Requirement) (course : CourseRec)
    (completed_set : List String) : List String × ℚ :=
  reqs.foldl (fun acc req =>
    if _course_satisfies_requirement course req completed_set then
      (acc.1 ++ [req.id],
       acc.2 + (if req.requirement_type = "REQUIRED" then 10
                else if req.requirement_type = "CHOICE" then 5 else 2))
    else acc) ([], 0)

/-- Construction of one `AvailableCourse` entry (lines 233-267): requirement
score, +3.0 for satisfied prerequisites, and the `(600 - level_value) / 100`
boost, `level_value` being `int(course.level)` for a digit string and `0`
otherwise. -/
def availableEntry (program : Program) (completed_set : List String)
    (course : CourseRec) (prerequisites_met : Bool) : AvailableCourse :=
  let sf := scoreFold program.program_requirements course completed_set
  let level_value : Int := if isDigitStr course.level then natOfDigits course.level else 0
  let priority_score : ℚ :=
    sf.2 + (if prerequisites_met then 3 else 0) + ((600 : ℚ) - (level_value : ℚ)) / 100
  ⟨course.code, course.title, course.credits, course.level, prerequisites_met,
    sf.1, priority_score, course.typically_offered⟩

/-- The candidate loop of `get_next_available_courses`: builds one entry per
candidate course in fetch order, propagating uncaught errors. -/
def buildAvailable (cat : Catalog) (program : Program) (completed : List String)
    (completed_set : List String) :
    List CourseRec → Except PyErr (List AvailableCourse)
  | [] => .ok []
  | course :: rest =>
    match prereqMetFor cat completed course.code with
    | .error e => .error e
    | .ok pm =>
      match buildAvailable cat program completed completed_set rest with
      | .error e => .error e
      | .ok tail => .ok (availableEntry program completed_set course pm :: tail)

/-- Embedding of `get_next_available_courses` (requirement_service.py, lines
149-272): gathers candidate codes from requirement course lists and
level-filtered catalog queries, removes completed ones, scores every candidate
and returns the list sorted by descending priority score (Python `list.sort`
is stable, as is `insertionSort`; the unspecified set/database iteration order
is fixed to catalog order). -/
def get_next_available_courses (cat : Catalog) (programs : List Program)
    (program_code : String) (completed : List String) :
    Except PyErr (List AvailableCourse) :=
  match lookupProgram programs program_code with
  | none => .error .valueError
  | some program =>
    let completed_set := (completed.map normCode).dedup
    let req_list_courses := (program.program_requirements.map (·.courses)).flatten
    let level_courses := (program.program_requirements.map (fun req =>
        if req.requirement_type = "LEVEL_REQUIREMENT" then
          (cat.filter (matchesLevelSubject req.level_filter req.subject_filter)).map (·.code)
        else [])).flatten
    let all_requirement_courses := (req_list_courses ++ level_courses).dedup
    let candidate_codes := all_requirement_courses.filter (· ∉ completed_set)
    if candidate_codes.isEmpty then .ok []
    else
      let candidate_courses := cat.filter (fun c => c.code ∈ candidate_codes)
      match buildAvailable cat program completed completed_set candidate_courses with
      | .error e => .error e
      | .ok available =>
        .ok (available.insertionSort (fun a b => b.priority_score ≤ a.priority_score))

/-- Embedding of `SpecialRulesResult` (schemas/services.py); a substitution
dict `{"from": f, "to": t}` is the pair `(f, t)`. -/
structure SpecialRulesResult where
  excluded_courses : List String
  warnings : List String
  substitutions_needed : List (String × String)
  additional_requirements : List String
deriving DecidableEq

/-- The exclusion warning string
`f"'{course_a}' excludes '{excluded_course}'. Cannot count both toward degree."`. -/
def exclusionWarning (course_a excluded_course : String) : String :=
  "\x27" ++ course_a ++ "\x27 excludes \x27" ++ excluded_course ++
    "\x27. Cannot count both toward degree."

/-- The substitution warning string
`f"'{from_course}' should be substituted with '{to_course}'"`. -/
def substitutionWarning (from_course to_course : String) : String :=
  "\x27" ++ from_course ++ "\x27 should be substituted with \x27" ++ to_course ++ "\x27"

/-- Embedding of `apply_special_rules` (requirement_service.py, lines
275-339): exclusion rules whose (uppercased) trigger course is in the
normalized input set exclude every listed (uppercased) code also present, with
a warning each; substitution rules whose `from` course is present are
recorded; additional requirements pass through. Exclusion warnings precede
substitution warnings, as in the source's append order. -/
def apply_special_rules (program : Program) (courses : List String) :
    SpecialRulesResult :=
  let special_rules := program.special_rules.getD SpecialRules.emptyRules
  let courses_set := (courses.map normCode).dedup
  let exclPairs := special_rules.exclusions.flatMap (fun item =>
    match item with
    | .nonDict => []
    | .rule course0 excludes =>
      let course_a := upperStr course0
      if course_a ∈ courses_set then
        excludes.filterMap (fun e =>
          let excluded_course := upperStr e
          if excluded_course ∈ courses_set then
            some (excluded_course, exclusionWarning course_a excluded_course)
          else none)
      else [])
  let subPairs := special_rules.substitutions.filterMap (fun item =>
    match item with
    | .nonDict => none
    | .rule from_course to_course =>
      if upperStr from_course ∈ courses_set then
        some ((from_course, to_course), substitutionWarning from_course to_course)
      else none)
  let additional := special_rules.additional_requirements.filterMap (fun item =>
    match item with
    | .str s => some s
    | .nonStr => none)
  ⟨exclPairs.map Prod.fst, exclPairs.map Prod.snd ++ subPairs.map Prod.snd,
   subPairs.map Prod.fst, additional⟩

/-- Unfolding of the `AND` loop: satisfaction is the conjunction over the
conditions, and the missing/satisfied lists are the in-order concatenations. -/
theorem evalAnd_eq (cs : List Formula) (C : List String) :
    evalAnd cs C =
      (cs.all (fun c => (_evaluate_formula c C).1),
       (cs.map (fun c => (_evaluate_formula c C).2.1)).flatten,
       (cs.map (fun c => (_evaluate_formula c C).2.2)).flatten) := by
  induction cs with
  | nil => simp [evalAnd]
  | cons c cs ih => simp [evalAnd, ih]

/-- The satisfaction component of the `OR` loop is the disjunction over the
conditions. -/
theorem evalOr_fst (cs : List Formula) (C : List String) :
    (evalOr cs C).1 = cs.any (fun c => (_evaluate_formula c C).1) := by
  induction cs with
  | nil => simp [evalOr]
  | cons c cs ih =>
    simp only [evalOr, List.any_cons]
    by_cases h : (_evaluate_formula c C).1
    · simp [h]
    · simp only [h, if_neg]
      rcases he : evalOr cs C with ⟨b, m, s⟩
      rcases b <;> simp_all

/-- The `OR` loop with no satisfied condition returns the concatenated missing
lists and an empty satisfied list. -/
theorem evalOr_none (cs : List Formula) (C : List String)
    (h : ∀ c ∈ cs, (_evaluate_formula c C).1 = false) :
    evalOr cs C = (false, (cs.map (fun c => (_evaluate_formula c C).2.1)).flatten, []) := by
  induction cs with
  | nil => simp [evalOr]
  | cons c cs ih =>
    have hc := h c (by simp)
    have ih2 := ih (fun x hx => h x (by simp [hx]))
    simp [evalOr, hc, ih2]

/-- The `OR` loop returns the satisfied list of the first satisfied condition,
with empty missing list, discarding everything gathered before it. -/
theorem evalOr_found (pre : List Formula) (c : Formula) (post : List Formula)
    (C : List String) (hpre : ∀ p ∈ pre, (_evaluate_formula p C).1 = false)
    (hc : (_evaluate_formula c C).1 = true) :
    evalOr (pre ++ c :: post) C = (true, [], (_evaluate_formula c C).2.2) := by
  induction pre with
  | nil => simp [evalOr, hc]
  | cons p ps ih =>
    have hp := hpre p (by simp)
    have ih2 := ih (fun x hx => hpre x (by simp [hx]))
    simp [evalOr, hp, ih2]

mutual

/-- Exact transcription of claim C1's characterization of satisfaction: the
formula is empty, or a `COURSE` leaf whose (string) code uppercased is in the
completed set, or an `AND` all of whose children are satisfied, or an `OR`
with a satisfied child; everything else — including a `COURSE` node whose
`code` is a nested formula — is not satisfied. -/
def claimSatisfiedC1 : Formula → List String → Bool
  | .empty, _ => true
  | .node t code conds, C =>
    let tt := upperStr t
    if tt = "COURSE" then
      match code with
      | .cstr s => decide (upperStr s ∈ C)
      | .cdict _ => false
      | .cother _ _ _ => false
    else if tt = "AND" then claimAllC1 conds C
    else if tt = "OR" then claimAnyC1 conds C
    else false

/-- Conjunction of `claimSatisfiedC1` over a list of children. -/
def claimAllC1 : List Formula → List String → Bool
  | [], _ => true
  | c :: cs, C => claimSatisfiedC1 c C && claimAllC1 cs C

/-- Disjunction of `claimSatisfiedC1` over a list of children. -/
def claimAnyC1 : List Formula → List String → Bool
  | [], _ => false
  | c :: cs, C => claimSatisfiedC1 c C || claimAnyC1 cs C

end

mutual

/-- Amended claim C1 satisfaction predicate: as `claimSatisfiedC1`, plus the
clause the code actually implements for a `COURSE` node whose `code` field is
a nested formula dict — such a node is satisfied iff the nested formula is. -/
def amendedSatisfiedC1 : Formula → List String → Bool
  | .empty, _ => true
  | .node t code conds, C =>
    let tt := upperStr t
    if tt = "COURSE" then
      match code with
      | .cstr s => decide (upperStr s ∈ C)
      | .cdict g => amendedSatisfiedC1 g C
      | .cother _ _ _ => false
    else if tt = "AND" then amendedAllC1 conds C
    else if tt = "OR" then amendedAnyC1 conds C
    else false

/-- Conjunction of `amendedSatisfiedC1` over a list of children. -/
def amendedAllC1 : List Formula → List String → Bool
  | [], _ => true
  | c :: cs, C => amendedSatisfiedC1 c C && amendedAllC1 cs C

/-- Disjunction of `amendedSatisfiedC1` over a list of children. -/
def amendedAnyC1 : List Formula → List String → Bool
  | [], _ => false
  | c :: cs, C => amendedSatisfiedC1 c C || amendedAnyC1 cs C

end

/-- The list conjunction helper agrees with `List.all`. -/
theorem amendedAllC1_eq (cs : List Formula) (C : List String) :
    amendedAllC1 cs C = cs.all (fun c => amendedSatisfiedC1 c C) := by
  induction cs with
  | nil => simp [amendedAllC1]
  | cons c cs ih => simp [amendedAllC1, ih]

/-- The list disjunction helper agrees with `List.any`. -/
theorem amendedAnyC1_eq (cs : List Formula) (C : List String) :
    amendedAnyC1 cs C = cs.any (fun c => amendedSatisfiedC1 c C) := by
  induction cs with
  | nil => simp [amendedAnyC1]
  | cons c cs ih => simp [amendedAnyC1, ih]

/-- Pointwise equal predicates give equal `List.all`. -/
theorem all_congr_list {α : Type} (l : List α) (f g : α → Bool)
    (h : ∀ a ∈ l, f a = g a) : l.all f = l.all g := by
  induction l with
  | nil => rfl
  | cons a l ih =>
    simp only [List.all_cons, h a (by simp)]
    rw [ih (fun x hx => h x (by simp [hx]))]

/-- Pointwise equal predicates give equal `List.any`. -/
theorem any_congr_list {α : Type} (l : List α) (f g : α → Bool)
    (h : ∀ a ∈ l, f a = g a) : l.any f = l.any g := by
  induction l with
  | nil => rfl
  | cons a l ih =>
    simp only [List.any_cons, h a (by simp)]
    rw [ih (fun x hx => h x (by simp [hx]))]

/-- Unfolding of `_evaluate_formula` on a node whose type tag is not `COURSE`. -/
theorem eval_node_not_course (t : String) (code : CodeVal) (conds : List Formula)
    (C : List String) (hC : ¬ upperStr t = "COURSE") :
    _evaluate_formula (.node t code conds) C =
      if upperStr t = "AND" then evalAnd conds C
      else if upperStr t = "OR" then evalOr conds C
      else (false, [], []) := by
  cases code <;> simp [_evaluate_formula, hC]

/-- Unfolding of `amendedSatisfiedC1` on a node whose type tag is not `COURSE`. -/
theorem amended_node_not_course (t : String) (code : CodeVal) (conds : List Formula)
    (C : List String) (hC : ¬ upperStr t = "COURSE") :
    amendedSatisfiedC1 (.node t code conds) C =
      if upperStr t = "AND" then amendedAllC1 conds C
      else if upperStr t = "OR" then amendedAnyC1 conds C
      else false := by
  cases code <;> simp [amendedSatisfiedC1, hC]

/-- The satisfaction bit computed by `_evaluate_formula` agrees with the
amended claim predicate on every formula and completed set. -/
theorem eval_fst_eq_amended : ∀ f : Formula, ∀ C : List String,
    (_evaluate_formula f C).1 = amendedSatisfiedC1 f C := by
  apply formula_strong_ind (fun f => ∀ C, (_evaluate_formula f C).1 = amendedSatisfiedC1 f C)
  intro f ih C
  match f with
  | .empty => simp [_evaluate_formula, amendedSatisfiedC1]
  | .node t code conds =>
    by_cases hC : upperStr t = "COURSE"
    · cases code with
      | cstr s =>
        simp only [_evaluate_formula, amendedSatisfiedC1, hC, if_pos]
        by_cases hs : upperStr s ∈ C <;> simp [hs]
      | cdict g =>
        have hg : sizeOf g < sizeOf (Formula.node t (.cdict g) conds) := by
          simp only [Formula.node.sizeOf_spec, CodeVal.cdict.sizeOf_spec]
          omega
        simp only [_evaluate_formula, amendedSatisfiedC1, hC, if_pos]
        exact ih g hg C
      | cother => simp [_evaluate_formula, amendedSatisfiedC1, hC]
    · by_cases hA : upperStr t = "AND"
      · have key : ∀ c ∈ conds, (_evaluate_formula c C).1 = amendedSatisfiedC1 c C := by
          intro c hc
          have : sizeOf c < sizeOf (Formula.node t code conds) := by
            have := List.sizeOf_lt_of_mem hc
            simp only [Formula.node.sizeOf_spec]
            omega
          exact ih c this C
        rw [eval_node_not_course t code conds C hC,
          amended_node_not_course t code conds C hC, if_pos hA, if_pos hA]
        rw [evalAnd_eq, amendedAllC1_eq]
        exact all_congr_list conds _ _ key
      · by_cases hO : upperStr t = "OR"
        · have key : ∀ c ∈ conds, (_evaluate_formula c C).1 = amendedSatisfiedC1 c C := by
            intro c hc
            have : sizeOf c < sizeOf (Formula.node t code conds) := by
              have := List.sizeOf_lt_of_mem hc
              simp only [Formula.node.sizeOf_spec]
              omega
            exact ih c this C
          rw [eval_node_not_course t code conds C hC,
            amended_node_not_course t code conds C hC, if_neg hA, if_neg hA,
            if_pos hO, if_pos hO]
          rw [evalOr_fst, amendedAnyC1_eq]
          exact any_congr_list conds _ _ key
        · rw [eval_node_not_course t code conds C hC,
            amended_node_not_course t code conds C hC, if_neg hA, if_neg hA,
            if_neg hO, if_neg hO]

/-- C1 (amended): for every formula and completed set, `_evaluate_formula`
returns satisfied iff the formula is empty, or a `COURSE` leaf whose string
code uppercased is completed, or a `COURSE` node whose `code` field is a
nested formula that is itself satisfied, or an `AND` all of whose children are
satisfied, or an `OR` with a satisfied child; and any node with an
unrecognized type tag evaluates to unsatisfied with empty missing and
satisfied lists, without raising. -/
theorem claim_C1 :
    (∀ (f : Formula) (C : List String),
       (_evaluate_formula f C).1 = amendedSatisfiedC1 f C)
    ∧ (∀ (t : String) (code : CodeVal) (conds : List Formula) (C : List String),
       ¬ upperStr t = "COURSE" → ¬ upperStr t = "AND" → ¬ upperStr t = "OR" →
       _evaluate_formula (.node t code conds) C = (false, [], [])) :=
  ⟨eval_fst_eq_amended, fun t code conds C hC hA hO => by
    rw [eval_node_not_course t code conds C hC, if_neg hA, if_neg hO]⟩

/-- C1 counterexample: a `COURSE` node whose `code` field is a non-empty
nested formula (here an empty `AND`, which is vacuously satisfied) evaluates
to satisfied, while the claim's case analysis — which only satisfies a
`COURSE` leaf through a completed string code — declares it unsatisfied. -/
theorem claim_C1_counterexample :
    (_evaluate_formula (.node "COURSE" (.cdict (.node "AND" (.cstr "") [])) []) []).1
        = true
    ∧ claimSatisfiedC1 (.node "COURSE" (.cdict (.node "AND" (.cstr "") [])) []) []
        = false := by
  decide

/-- Witness for C1 at concrete inputs: a satisfied single-course formula, and
a node with the unknown tag `XYZ`. -/
theorem claim_C1_witness :
    (_evaluate_formula (.node "COURSE" (.cstr "CMPUT 174") []) ["CMPUT 174"]).1 =
        amendedSatisfiedC1 (.node "COURSE" (.cstr "CMPUT 174") []) ["CMPUT 174"]
    ∧ _evaluate_formula (.node "XYZ" (.cstr "A") []) [] = (false, [], []) :=
  ⟨claim_C1.1 _ _,
   claim_C1.2 "XYZ" (.cstr "A") [] [] (by decide) (by decide) (by decide)⟩

/-- C2: on an `OR` node, if the conditions split as `pre ++ c :: post` with
every condition in `pre` unsatisfied and `c` satisfied, the result is exactly
`(true, [], c.satisfied)` — later siblings (`post` is arbitrary) do not
influence the result and earlier partial missing lists are discarded; if no
condition is satisfied the result is `(false, concatenated missing lists, [])`. -/
theorem claim_C2 (t : String) (code : CodeVal) (conds : List Formula)
    (C : List String) (hOr : upperStr t = "OR") :
    (∀ pre c post, conds = pre ++ c :: post →
       (∀ p ∈ pre, (_evaluate_formula p C).1 = false) →
       (_evaluate_formula c C).1 = true →
       _evaluate_formula (.node t code conds) C =
         (true, [], (_evaluate_formula c C).2.2))
    ∧ ((∀ c ∈ conds, (_evaluate_formula c C).1 = false) →
       _evaluate_formula (.node t code conds) C =
         (false, (conds.map (fun c => (_evaluate_formula c C).2.1)).flatten, [])) := by
  have hC : ¬ upperStr t = "COURSE" := by rw [hOr]; decide
  have hA : ¬ upperStr t = "AND" := by rw [hOr]; decide
  constructor
  · intro pre c post hconds hpre hc
    rw [eval_node_not_course t code conds C hC, if_neg hA, if_pos hOr, hconds]
    exact evalOr_found pre c post C hpre hc
  · intro hall
    rw [eval_node_not_course t code conds C hC, if_neg hA, if_pos hOr]
    exact evalOr_none conds C hall

/-- Witness for C2: `Or([A, B])` with only `B` completed takes the second
branch, returning its satisfied list and discarding the missing list of `A`. -/
theorem claim_C2_witness :
    _evaluate_formula
        (.node "OR" (.cstr "")
          [.node "COURSE" (.cstr "A") [], .node "COURSE" (.cstr "B") []]) ["B"] =
      (true, [], (_evaluate_formula (.node "COURSE" (.cstr "B") []) ["B"]).2.2) :=
  (claim_C2 "OR" (.cstr "")
      [.node "COURSE" (.cstr "A") [], .node "COURSE" (.cstr "B") []] ["B"]
      (by decide)).1
    [.node "COURSE" (.cstr "A") []] (.node "COURSE" (.cstr "B") []) [] rfl
    (by decide) (by decide)

/-- C3: on an `AND` node, every condition contributes: the missing and
satisfied lists are the in-order concatenations over all conditions and the
satisfaction bit is the conjunction of the conditions' satisfaction. -/
theorem claim_C3 (t : String) (code : CodeVal) (conds : List Formula)
    (C : List String) (hAnd : upperStr t = "AND") :
    _evaluate_formula (.node t code conds) C =
      (conds.all (fun c => (_evaluate_formula c C).1),
       (conds.map (fun c => (_evaluate_formula c C).2.1)).flatten,
       (conds.map (fun c => (_evaluate_formula c C).2.2)).flatten) := by
  have hC : ¬ upperStr t = "COURSE" := by rw [hAnd]; decide
  rw [eval_node_not_course t code conds C hC, if_pos hAnd]
  exact evalAnd_eq conds C

/-- Witness for C3: `And([A, B])` with both failing collects both missing
codes. -/
theorem claim_C3_witness :
    _evaluate_formula
        (.node "AND" (.cstr "")
          [.node "COURSE" (.cstr "A") [], .node "COURSE" (.cstr "B") []]) [] =
      ([.node "COURSE" (.cstr "A") [], .node "COURSE" (.cstr "B") []].all
          (fun c => (_evaluate_formula c ([] : List String)).1),
       ([.node "COURSE" (.cstr "A") [], .node "COURSE" (.cstr "B") []].map
          (fun c => (_evaluate_formula c ([] : List String)).2.1)).flatten,
       ([.node "COURSE" (.cstr "A") [], .node "COURSE" (.cstr "B") []].map
          (fun c => (_evaluate_formula c ([] : List String)).2.2)).flatten) :=
  claim_C3 "AND" (.cstr "")
    [.node "COURSE" (.cstr "A") [], .node "COURSE" (.cstr "B") []] [] (by decide)

mutual

/-- Amended claim C4, collection part: the non-empty string codes at `COURSE`
leaves reachable through `AND`/`OR` nodes, in traversal order. -/
def specStrCodes : Formula → List String
  | .empty => []
  | .node t code conds =>
    let tt := upperStr t
    if tt = "COURSE" then
      match code with
      | .cstr s => if s = "" then [] else [s]
      | _ => []
    else if tt = "AND" ∨ tt = "OR" then specStrCodesList conds
    else []

/-- Recursion of `specStrCodes` over a `conditions` list. -/
def specStrCodesList : List Formula → List String
  | [] => []
  | c :: cs => specStrCodes c ++ specStrCodesList cs

end

mutual

/-- Amended claim C4, failure part: some `COURSE` leaf reachable through
`AND`/`OR` nodes carries a truthy unhashable `code` value (a non-empty dict
or array) — the values on which `set()` raises `TypeError`. -/
def specHasUnhashableCode : Formula → Bool
  | .empty => false
  | .node t code conds =>
    let tt := upperStr t
    if tt = "COURSE" then codeTruthy code && !isHashable code
    else if tt = "AND" ∨ tt = "OR" then specHasUnhashableCodeList conds
    else false

/-- Recursion of `specHasUnhashableCode` over a `conditions` list. -/
def specHasUnhashableCodeList : List Formula → Bool
  | [] => false
  | c :: cs => specHasUnhashableCode c || specHasUnhashableCodeList cs

end

/-- Unfolding of `specStrCodes` on a node whose type tag is not `COURSE`. -/
theorem specStrCodes_not_course (t : String) (code : CodeVal) (conds : List Formula)
    (hC : ¬ upperStr t = "COURSE") :
    specStrCodes (.node t code conds) =
      if upperStr t = "AND" ∨ upperStr t = "OR" then specStrCodesList conds
      else [] := by
  cases code <;> simp [specStrCodes, hC]

/-- List version of `collect_strs`, from the pointwise statement. -/
theorem collectList_strs (conds : List Formula)
    (key : ∀ c ∈ conds,
      ((collectCodes c).all isHashable = !specHasUnhashableCode c)
      ∧ (collectCodes c).filterMap strOfCode = specStrCodes c) :
    ((collectCodesList conds).all isHashable = !specHasUnhashableCodeList conds)
    ∧ (collectCodesList conds).filterMap strOfCode = specStrCodesList conds := by
  induction conds with
  | nil => simp [collectCodesList, specHasUnhashableCodeList, specStrCodesList]
  | cons c cs ih =>
    have hc := key c (by simp)
    have ih2 := ih (fun x hx => key x (by simp [hx]))
    constructor
    · simp [collectCodesList, specHasUnhashableCodeList, List.all_append, hc.1,
        ih2.1, Bool.not_or]
    · simp [collectCodesList, specStrCodesList, List.filterMap_append, hc.2, ih2.2]

/-- The codes collected by the source are all hashable exactly when no
reachable `COURSE` leaf carries a truthy unhashable code, and their string
content is exactly the spec-side code list. -/
theorem collect_strs : ∀ f : Formula,
    ((collectCodes f).all isHashable = !specHasUnhashableCode f)
    ∧ (collectCodes f).filterMap strOfCode = specStrCodes f := by
  apply formula_strong_ind (fun f =>
    ((collectCodes f).all isHashable = !specHasUnhashableCode f)
    ∧ (collectCodes f).filterMap strOfCode = specStrCodes f)
  intro f ih
  match f with
  | .empty => simp [collectCodes, specHasUnhashableCode, specStrCodes]
  | .node t code conds =>
    by_cases hC : upperStr t = "COURSE"
    · cases code with
      | cstr s =>
        by_cases hs : s = "" <;>
          simp [collectCodes, specHasUnhashableCode, specStrCodes, codeTruthy,
            isHashable, strOfCode, hC, hs]
      | cdict g =>
        cases g <;>
          simp [collectCodes, specHasUnhashableCode, specStrCodes, codeTruthy,
            isHashable, strOfCode, hC, formulaTruthy]
      | cother ct ch ci =>
        cases ct <;> cases ch <;>
          simp [collectCodes, specHasUnhashableCode, specStrCodes, codeTruthy,
            isHashable, strOfCode, hC]
    · have key : ∀ c ∈ conds,
          ((collectCodes c).all isHashable = !specHasUnhashableCode c)
          ∧ (collectCodes c).filterMap strOfCode = specStrCodes c := by
        intro c hc
        have : sizeOf c < sizeOf (Formula.node t code conds) := by
          have := List.sizeOf_lt_of_mem hc
          simp only [Formula.node.sizeOf_spec]
          omega
        exact ih c this
      have hlist := collectList_strs conds key
      rw [specStrCodes_not_course t code conds hC]
      by_cases hAO : upperStr t = "AND" ∨ upperStr t = "OR"
      · simp [collectCodes, specHasUnhashableCode, hC, hAO, hlist.1, hlist.2]
      · simp [collectCodes, specHasUnhashableCode, hC, hAO]

/-- Membership in the collected codes of a `conditions` list. -/
theorem mem_collectCodesList (v : CodeVal) (cs : List Formula) :
    v ∈ collectCodesList cs ↔ ∃ c ∈ cs, v ∈ collectCodes c := by
  induction cs with
  | nil => simp [collectCodesList]
  | cons c cs ih => simp [collectCodesList, ih]

/-- Every collected code value is truthy (the `if code:` guard). -/
theorem collect_truthy : ∀ f : Formula, ∀ v ∈ collectCodes f,
    codeTruthy v = true := by
  apply formula_strong_ind (fun f => ∀ v ∈ collectCodes f, codeTruthy v = true)
  intro f ih v hv
  match f with
  | .empty => simp [collectCodes] at hv
  | .node t code conds =>
    have hunf : collectCodes (.node t code conds) =
        if upperStr t = "COURSE" then (if codeTruthy code then [code] else [])
        else if upperStr t = "AND" ∨ upperStr t = "OR" then collectCodesList conds
        else [] := rfl
    rw [hunf] at hv
    by_cases hC : upperStr t = "COURSE"
    · rw [if_pos hC] at hv
      by_cases hct : codeTruthy code
      · rw [if_pos hct] at hv
        have hvc : v = code := by simpa using hv
        subst hvc
        exact hct
      · rw [if_neg hct] at hv
        simp at hv
    · rw [if_neg hC] at hv
      by_cases hAO : upperStr t = "AND" ∨ upperStr t = "OR"
      · rw [if_pos hAO] at hv
        rcases (mem_collectCodesList v conds).mp hv with ⟨c, hc, hvc⟩
        have hs : sizeOf c < sizeOf (Formula.node t code conds) := by
          have := List.sizeOf_lt_of_mem hc
          simp only [Formula.node.sizeOf_spec]
          omega
        exact ih c hs v hvc
      · rw [if_neg hAO] at hv
        simp at hv

/-- C4 (amended): `_extract_course_codes` raises `TypeError` exactly when some
`COURSE` leaf reachable through `AND`/`OR` nodes carries a truthy unhashable
`code` value — in particular a non-empty nested formula dict — because
`list(set(codes))` hashes every collected element; otherwise it returns the
deduplicated collection of the truthy code values at reachable `COURSE`
leaves, which keeps truthy hashable non-string codes (JSON numbers, `true`)
and whose string members are exactly the non-empty string course codes there
(falsy codes — `""`, empty dicts, `0`, `false`, `null` — contribute
nothing). -/
theorem claim_C4 (f : Formula) :
    (_extract_course_codes f =
      if specHasUnhashableCode f then .error ()
      else .ok ((collectCodes f).dedup))
    ∧ (collectCodes f).filterMap strOfCode = specStrCodes f
    ∧ ∀ v ∈ collectCodes f, codeTruthy v = true := by
  refine ⟨?_, (collect_strs f).2, collect_truthy f⟩
  have h1 := (collect_strs f).1
  by_cases hb : specHasUnhashableCode f
  · simp [_extract_course_codes, h1, hb]
  · simp [_extract_course_codes, h1, hb]

/-- C4 counterexample: a `COURSE` leaf whose `code` field is a (non-empty)
nested formula dict makes `_extract_course_codes` raise `TypeError` — the
collected dict is unhashable for `list(set(codes))` — instead of being ignored
without error as the claim states. -/
theorem claim_C4_counterexample :
    _extract_course_codes
        (.node "COURSE" (.cdict (.node "COURSE" (.cstr "A") [])) []) =
      .error () := by
  decide

mutual

/-- All nodes of a prerequisite tree (the node itself and, recursively, the
nodes of its children). -/
def nodesOf : PrerequisiteNode → List PrerequisiteNode
  | .mk c ttl d prs f => .mk c ttl d prs f :: nodesOfList prs

/-- Nodes of a list of subtrees. -/
def nodesOfList : List PrerequisiteNode → List PrerequisiteNode
  | [] => []
  | n :: ns => nodesOf n ++ nodesOfList ns

end

mutual

/-- Path-visited invariant of claim C5: walking down the tree while
accumulating the visited set handed to the builder, any node whose course code
was already in that set is a bare leaf (no children, no formula). -/
def ancInvB (visited : List String) : PrerequisiteNode → Bool
  | .mk code _ _ prs f =>
    (if code ∈ visited then prs.isEmpty && !(formulaTruthy f) else true)
    && ancInvListB (code :: visited) prs

/-- `ancInvB` over a list of sibling subtrees (same visited set). -/
def ancInvListB (visited : List String) : List PrerequisiteNode → Bool
  | [] => true
  | n :: ns => ancInvB visited n && ancInvListB visited ns

end

/-- `ancInvListB` is the conjunction of `ancInvB` over the list. -/
theorem ancInvListB_eq (visited : List String) (ns : List PrerequisiteNode) :
    ancInvListB visited ns = ns.all (ancInvB visited) := by
  induction ns with
  | nil => simp [ancInvListB]
  | cons n ns ih => simp [ancInvListB, ih]

/-- Membership in the nodes of a subtree list. -/
theorem mem_nodesOfList (m : PrerequisiteNode) (ns : List PrerequisiteNode) :
    m ∈ nodesOfList ns ↔ ∃ n ∈ ns, m ∈ nodesOf n := by
  induction ns with
  | nil => simp [nodesOfList]
  | cons n ns ih => simp [nodesOfList, ih]

/-- A successful course lookup returns a row whose code is the searched code. -/
theorem lookup_code_eq (cat : Catalog) (code : String) (c : CourseRec)
    (h : lookupCourse cat code = some c) : c.code = code := by
  have := List.find?_some h
  simpa using this

/-- Per-node invariant established for every node of a tree built from
`depth`: its recorded depth lies in `[depth, max depth maxD]`, a node recorded
at `maxD` is a bare leaf, and its course exists in the catalog. -/
def treeNodeOk (cat : Catalog) (dlo maxD : Nat) (n : PrerequisiteNode) : Prop :=
  dlo ≤ n.depth ∧ n.depth ≤ max dlo maxD ∧
  (n.depth = maxD → n.prerequisites = [] ∧ n.formula = .empty) ∧
  (lookupCourse cat n.course_code).isSome

/-- Nodes produced by the children loop satisfy any property enjoyed by every
successful recursive call. -/
theorem tree_children_ok {Q : PrerequisiteNode → Prop} (cat : Catalog)
    (codes : List CodeVal) (depth maxD : Nat) (visited : List String) :
    ∀ ns : List PrerequisiteNode,
    (∀ p t, get_prerequisite_tree cat p depth maxD visited = .ok t → Q t) →
    tree_children cat codes depth maxD visited = .ok ns →
    ∀ n ∈ ns, Q n := by
  induction codes with
  | nil =>
    intro ns _ h n hn
    rw [tree_children] at h
    injection h with h2
    subst h2
    exact absurd hn (by simp)
  | cons p ps ih =>
    intro ns hQ h n hn
    cases p with
    | cstr s =>
      rw [tree_children] at h
      cases hg : get_prerequisite_tree cat s depth maxD visited with
      | ok n0 =>
        rw [hg] at h
        cases hc : tree_children cat ps depth maxD visited with
        | ok ns0 =>
          rw [hc] at h
          injection h with h2
          subst h2
          rcases List.mem_cons.mp hn with h1 | h1
          · subst h1; exact hQ s n hg
          · exact ih ns0 hQ hc n h1
        | error e => rw [hc] at h; exact absurd h (by simp)
      | error e =>
        rw [hg] at h
        cases e with
        | valueError => exact ih ns hQ h n hn
        | typeError => exact absurd h (by simp)
    | cdict f =>
      rw [tree_children] at h
      · exact ih ns hQ h n hn
      · exact fun a ha => CodeVal.noConfusion ha
    | cother ct ch ci =>
      rw [tree_children] at h
      · exact ih ns hQ h n hn
      · exact fun a ha => CodeVal.noConfusion ha

/-- The cutoff branch of `get_prerequisite_tree` (depth reached or course
already visited) produces a single bare leaf satisfying every invariant. -/
theorem tree_cutoff_ok (cat : Catalog) (code : String) (depth maxD : Nat)
    (visited : List String) (t : PrerequisiteNode)
    (hcut : depth ≥ maxD ∨ code ∈ visited)
    (h : get_prerequisite_tree cat code depth maxD visited = .ok t) :
    (∀ m ∈ nodesOf t, treeNodeOk cat depth maxD m) ∧ ancInvB visited t = true := by
  rw [get_prerequisite_tree, dif_pos hcut] at h
  cases hl : lookupCourse cat code with
  | none => rw [hl] at h; exact absurd h (by simp)
  | some row =>
    rw [hl] at h
    injection h with h2
    subst h2
    have hrc := lookup_code_eq cat code row hl
    constructor
    · intro m hm
      simp [nodesOf, nodesOfList] at hm
      subst hm
      refine ⟨Nat.le_refl _, Nat.le_max_left _ _, fun _ => ⟨rfl, rfl⟩, ?_⟩
      simp only [PrerequisiteNode.course_code, hrc, hl, Option.isSome]
    · simp [ancInvB, ancInvListB, formulaTruthy]

/-- Every tree successfully built by `get_prerequisite_tree` satisfies the
per-node depth/leaf/existence invariants and the path-visited invariant
(strong induction on the remaining depth budget). -/
theorem tree_ok_strong : ∀ (fuel depth maxD : Nat) (cat : Catalog)
    (code : String) (visited : List String) (t : PrerequisiteNode),
    maxD - depth ≤ fuel →
    get_prerequisite_tree cat code depth maxD visited = .ok t →
    (∀ m ∈ nodesOf t, treeNodeOk cat depth maxD m) ∧ ancInvB visited t = true := by
  intro fuel
  induction fuel with
  | zero =>
    intro depth maxD cat code visited t hf h
    exact tree_cutoff_ok cat code depth maxD visited t (Or.inl (by omega)) h
  | succ fuel ihf =>
    intro depth maxD cat code visited t hf h
    by_cases hcut : depth ≥ maxD ∨ code ∈ visited
    · exact tree_cutoff_ok cat code depth maxD visited t hcut h
    · have hd : depth < maxD := by
        rcases Nat.lt_or_ge depth maxD with h1 | h1
        · exact h1
        · exact absurd (Or.inl h1) hcut
      have hv : code ∉ visited := fun hx => hcut (Or.inr hx)
      rw [get_prerequisite_tree, dif_neg hcut] at h
      cases hl : lookupCourse cat code with
      | none => rw [hl] at h; exact absurd h (by simp)
      | some course =>
        rw [hl] at h
        dsimp only at h
        have hrc := lookup_code_eq cat code course hl
        by_cases hft : formulaTruthy course.prerequisite_formula
        · rw [if_pos hft] at h
          cases hx : _extract_course_codes course.prerequisite_formula with
          | error e => rw [hx] at h; exact absurd h (by simp)
          | ok prerequisite_codes =>
            rw [hx] at h
            dsimp only at h
            cases hc : tree_children cat prerequisite_codes (depth + 1) maxD
                (code :: visited) with
            | error e => rw [hc] at h; exact absurd h (by simp)
            | ok ns =>
              rw [hc] at h
              injection h with h2
              subst h2
              have hchild : ∀ n ∈ ns,
                  (∀ m ∈ nodesOf n, treeNodeOk cat (depth + 1) maxD m)
                  ∧ ancInvB (code :: visited) n = true :=
                tree_children_ok cat prerequisite_codes (depth + 1) maxD
                  (code :: visited) ns
                  (fun p t2 ht2 =>
                    ihf (depth + 1) maxD cat p (code :: visited) t2 (by omega) ht2)
                  hc
              constructor
              · intro m hm
                rw [show nodesOf (.mk course.code course.title depth ns
                      course.prerequisite_formula)
                    = .mk course.code course.title depth ns
                        course.prerequisite_formula :: nodesOfList ns
                    from rfl] at hm
                rcases List.mem_cons.mp hm with h1 | h1
                · subst h1
                  refine ⟨Nat.le_refl _, Nat.le_max_left _ _,
                    fun hq => absurd hq (by simp [PrerequisiteNode.depth]; omega), ?_⟩
                  simp only [PrerequisiteNode.course_code, hrc, hl, Option.isSome]
                · rcases (mem_nodesOfList m ns).mp h1 with ⟨n, hn, hmn⟩
                  rcases (hchild n hn).1 m hmn with ⟨hq1, hq2, hq3, hq4⟩
                  exact ⟨by omega, by omega, hq3, hq4⟩
              · rw [show ancInvB visited (.mk course.code course.title depth ns
                      course.prerequisite_formula)
                    = ((if course.code ∈ visited then
                          ns.isEmpty && !(formulaTruthy course.prerequisite_formula)
                        else true)
                       && ancInvListB (course.code :: visited) ns)
                    from rfl]
                rw [if_neg (hrc ▸ hv), ancInvListB_eq, Bool.true_and]
                rw [List.all_eq_true]
                intro n hn
                exact hrc ▸ (hchild n hn).2
        · rw [if_neg hft] at h
          injection h with h2
          subst h2
          constructor
          · intro m hm
            simp [nodesOf, nodesOfList] at hm
            subst hm
            refine ⟨Nat.le_refl _, Nat.le_max_left _ _,
              fun hq => absurd hq (by simp [PrerequisiteNode.depth]; omega), ?_⟩
            simp only [PrerequisiteNode.course_code, hrc, hl, Option.isSome]
          · rw [show ancInvB visited (.mk course.code course.title depth []
                  course.prerequisite_formula)
                = ((if course.code ∈ visited then
                      List.isEmpty [] && !(formulaTruthy course.prerequisite_formula)
                    else true)
                   && ancInvListB (course.code :: visited) [])
                from rfl]
            rw [if_neg (hrc ▸ hv)]
            simp [ancInvListB]

/-- C5: every node of a tree returned by `get_prerequisite_tree` (root call:
depth 0, empty visited set) has depth at most `maxD`; a node at depth `maxD`
is a leaf with no children and no formula; and, walking down any path, a node
whose course code was already visited on that path is likewise a bare leaf —
the cutoffs terminate the traversal with leaves instead of failing. -/
theorem claim_C5 (cat : Catalog) (code : String) (maxD : Nat)
    (t : PrerequisiteNode)
    (h : get_prerequisite_tree cat code 0 maxD [] = .ok t) :
    (∀ m ∈ nodesOf t, m.depth ≤ maxD ∧
       (m.depth = maxD → m.prerequisites = [] ∧ m.formula = .empty))
    ∧ ancInvB [] t = true := by
  have hmain := tree_ok_strong maxD 0 maxD cat code [] t (by omega) h
  refine ⟨fun m hm => ?_, hmain.2⟩
  rcases hmain.1 m hm with ⟨_h1, h2, h3, _h4⟩
  exact ⟨by omega, h3⟩

/-- Witness for C5: a two-course cyclic catalog (`A` requires `B`, `B`
requires `A`) explored to depth 2; the node at depth 2 is the visited/depth
cutoff leaf. -/
theorem claim_C5_witness :
    (∀ m ∈ nodesOf (.mk "A" "Course A" 0
        [.mk "B" "Course B" 1 [.mk "A" "Course A" 2 [] .empty]
          (.node "COURSE" (.cstr "A") [])]
        (.node "COURSE" (.cstr "B") [])),
       m.depth ≤ 2 ∧ (m.depth = 2 → m.prerequisites = [] ∧ m.formula = .empty))
    ∧ ancInvB [] (.mk "A" "Course A" 0
        [.mk "B" "Course B" 1 [.mk "A" "Course A" 2 [] .empty]
          (.node "COURSE" (.cstr "A") [])]
        (.node "COURSE" (.cstr "B") [])) = true :=
  claim_C5
    [⟨"A", "Course A", 3, "100", "X", [], .node "COURSE" (.cstr "B") []⟩,
     ⟨"B", "Course B", 3, "200", "X", [], .node "COURSE" (.cstr "A") []⟩]
    "A" 2 _ (by
      have hexB : _extract_course_codes (.node "COURSE" (.cstr "B") []) =
          .ok [CodeVal.cstr "B"] := by decide
      have hexA : _extract_course_codes (.node "COURSE" (.cstr "A") []) =
          .ok [CodeVal.cstr "A"] := by decide
      simp [get_prerequisite_tree, tree_children, lookupCourse, formulaTruthy,
        hexA, hexB, List.find?])

/-- C6: a `NotFound` condition is an error only for the explicit subject of a
call — `check_prerequisites` and a `get_prerequisite_tree` root call raise
`ValueError` when the named course is absent (never a silent default); the
recommender's per-candidate check absorbs a course-not-found `ValueError` into
`prerequisites_met = false` instead of propagating it; and every node of a
successfully built tree resolves in the catalog (missing descendants were
skipped, not surfaced). -/
theorem claim_C6 :
    (∀ (cat : Catalog) (code : String) (completed : List String),
       lookupCourse cat code = none →
       check_prerequisites cat code completed = .error .valueError)
    ∧ (∀ (cat : Catalog) (code : String) (maxD : Nat),
       lookupCourse cat code = none →
       get_prerequisite_tree cat code 0 maxD [] = .error .valueError)
    ∧ (∀ (cat : Catalog) (completed : List String) (code : String),
       lookupCourse cat code = none →
       prereqMetFor cat completed code = .ok false)
    ∧ (∀ (cat : Catalog) (code : String) (depth maxD : Nat)
         (visited : List String) (t : PrerequisiteNode),
       get_prerequisite_tree cat code depth maxD visited = .ok t →
       ∀ m ∈ nodesOf t, (lookupCourse cat m.course_code).isSome) := by
  have hcheck : ∀ (cat : Catalog) (code : String) (completed : List String),
      lookupCourse cat code = none →
      check_prerequisites cat code completed = .error .valueError := by
    intro cat code completed hl
    rw [check_prerequisites, hl]
  refine ⟨hcheck, ?_, ?_, ?_⟩
  · intro cat code maxD hl
    rw [get_prerequisite_tree]
    by_cases hcut : 0 ≥ maxD ∨ code ∈ ([] : List String)
    · rw [dif_pos hcut, hl]
    · rw [dif_neg hcut, hl]
  · intro cat completed code hl
    rw [prereqMetFor, hcheck cat code completed hl]
  · intro cat code depth maxD visited t h m hm
    exact ((tree_ok_strong (maxD - depth) depth maxD cat code visited t
      (Nat.le_refl _) h).1 m hm).2.2.2

/-- Witness for C6 at concrete inputs: lookups on an empty catalog fail with
`ValueError` (check, tree root) or degrade to `prerequisites_met = false`
(recommender helper), and a one-course tree resolves all its nodes. -/
theorem claim_C6_witness :
    check_prerequisites [] "X" [] = .error .valueError
    ∧ get_prerequisite_tree [] "X" 0 5 [] = .error .valueError
    ∧ prereqMetFor [] [] "X" = .ok false
    ∧ (∀ m ∈ nodesOf (.mk "A" "Course A" 0 [] .empty),
        (lookupCourse [⟨"A", "Course A", 3, "100", "X", [], .empty⟩]
          m.course_code).isSome) :=
  ⟨claim_C6.1 [] "X" [] rfl,
   claim_C6.2.1 [] "X" 5 rfl,
   claim_C6.2.2.1 [] [] "X" rfl,
   claim_C6.2.2.2 [⟨"A", "Course A", 3, "100", "X", [], .empty⟩] "A" 0 0 [] _
     (by simp [get_prerequisite_tree, lookupCourse, List.find?])⟩

/-- Ratio bounds for the unclamped `completed/required × 100` percentage. -/
theorem ratio_bounds (a b : ℚ) (ha : 0 ≤ a) (hb : 0 < b) (hab : a ≤ b) :
    0 ≤ a / b * 100 ∧ a / b * 100 ≤ 100 := by
  constructor
  · positivity
  · have h1 : a / b ≤ 1 := (div_le_one hb).mpr hab
    nlinarith

/-- Ratio bounds for the clamped `min(completed/required × 100, 100)`. -/
theorem min_ratio_bounds (a b : ℚ) (ha : 0 ≤ a) (hb : 0 < b) :
    0 ≤ min (a / b * 100) 100 ∧ min (a / b * 100) 100 ≤ 100 := by
  refine ⟨le_min (by positivity) (by norm_num), min_le_right _ _⟩

/-- A hit in the completed-courses map comes from the fetched rows. -/
theorem mapLookup_mem (objs : List CourseRec) (code : String) (c : CourseRec)
    (h : mapLookup objs code = some c) : c ∈ objs := by
  have := List.mem_of_find?_eq_some h
  exact (List.mem_reverse).mp this

/-- C7: for every requirement (any of the four kinds or an unknown kind) and
every completed set, given the data-model invariant that course credits are
non-negative, the progress percentage computed by
`_validate_single_requirement` lies in `[0, 100]`. -/
theorem claim_C7 (req : Requirement) (completed_set : List String)
    (objs : List CourseRec) (hcr : ∀ c ∈ objs, 0 ≤ c.credits) :
    0 ≤ (_validate_single_requirement req completed_set objs).progress_percentage
    ∧ (_validate_single_requirement req completed_set objs).progress_percentage
      ≤ 100 := by
  unfold _validate_single_requirement
  by_cases h1 : req.requirement_type = "REQUIRED"
  · simp only [h1, if_pos, ite_true]
    set required_courses := (req.courses.map upperStr).dedup with hrc
    set completed_in_req := required_courses.filter (· ∈ completed_set) with hcir
    by_cases hq : (required_courses.length : Int) > 0
    · rw [if_pos hq]
      have hlen : completed_in_req.length ≤ required_courses.length :=
        List.length_filter_le _ _
      exact ratio_bounds _ _ (by positivity) (by exact_mod_cast hq)
        (by exact_mod_cast hlen)
    · rw [if_neg hq]
      norm_num
  · rw [if_neg h1]
    by_cases h2 : req.requirement_type = "CHOICE"
    · simp only [h2, if_pos, ite_true]
      by_cases hq : (match req.choose_count with
          | none => (1 : Int)
          | some n => if n = 0 then 1 else n) > 0
      · rw [if_pos hq]
        exact min_ratio_bounds _ _ (by positivity) (by exact_mod_cast hq)
      · rw [if_neg hq]
        norm_num
    · rw [if_neg h2]
      by_cases h3 : req.requirement_type = "LEVEL_REQUIREMENT"
      · simp only [h3, if_pos, ite_true]
        by_cases hq : req.credits_needed.getD 0 > 0
        · rw [if_pos hq]
          have hsum : (0 : Int) ≤
              ((completed_set.filterMap (fun code =>
                match mapLookup objs code with
                | none => none
                | some course =>
                  if matchesLevelSubject req.level_filter req.subject_filter course
                  then some course else none)).map (·.credits)).sum := by
            apply List.sum_nonneg
            intro x hx
            rcases List.mem_map.mp hx with ⟨course, hcm, hcx⟩
            rcases List.mem_filterMap.mp hcm with ⟨code, _, hcode⟩
            cases hml : mapLookup objs code with
            | none => rw [hml] at hcode; exact absurd hcode (by simp)
            | some c0 =>
              rw [hml] at hcode
              dsimp only at hcode
              have hc0 : c0 ∈ objs := mapLookup_mem objs code c0 hml
              by_cases hmt : matchesLevelSubject req.level_filter
                  req.subject_filter c0
              · rw [if_pos hmt] at hcode
                injection hcode with hcode
                subst hcode
                exact hcx ▸ hcr c0 hc0
              · rw [if_neg hmt] at hcode
                exact absurd hcode (by simp)
          exact min_ratio_bounds _ _ (by exact_mod_cast hsum) (by exact_mod_cast hq)
        · rw [if_neg hq]
          norm_num
      · rw [if_neg h3]
        by_cases hq : (completed_set.length : Int) > 0
        · simp [hq]
        · simp [hq]

/-- Witness for C7: a `REQUIRED` requirement over `["A"]` with nothing
completed has progress 0, inside the interval. -/
theorem claim_C7_witness :
    0 ≤ (_validate_single_requirement
        ⟨"r1", "Core", "REQUIRED", ["A"], none, none, [], none, 0⟩ []
        []).progress_percentage
    ∧ (_validate_single_requirement
        ⟨"r1", "Core", "REQUIRED", ["A"], none, none, [], none, 0⟩ []
        []).progress_percentage ≤ 100 :=
  claim_C7 ⟨"r1", "Core", "REQUIRED", ["A"], none, none, [], none, 0⟩ [] []
    (by simp)

/-- Spec-side priority score of claim C8: 10.0 per satisfied `REQUIRED`
requirement, 5.0 per satisfied `CHOICE`, 2.0 per other satisfied requirement,
plus 3.0 when prerequisites are met, plus `(600 − levelValue)/100` where
`levelValue` is the numeric course level (0 for non-numeric levels). -/
def priorityScoreSpec (reqs : List Requirement) (completed_set : List String)
    (course : CourseRec) (prerequisites_met : Bool) : ℚ :=
  10 * ((reqs.countP (fun r => decide (r.requirement_type = "REQUIRED")
          && _course_satisfies_requirement course r completed_set)) : ℚ)
  + 5 * ((reqs.countP (fun r => decide (r.requirement_type = "CHOICE")
          && _course_satisfies_requirement course r completed_set)) : ℚ)
  + 2 * ((reqs.countP (fun r => !decide (r.requirement_type = "REQUIRED")
          && !decide (r.requirement_type = "CHOICE")
          && _course_satisfies_requirement course r completed_set)) : ℚ)
  + (if prerequisites_met then 3 else 0)
  + ((600 : ℚ)
      - ((if isDigitStr course.level then (natOfDigits course.level : Int) else 0) : ℚ))
    / 100

/-- The score accumulated by the requirement loop equals the weighted counts
of satisfied requirements by type. -/
theorem scoreFold_snd (course : CourseRec) (completed_set : List String) :
    ∀ (reqs : List Requirement) (init : List String × ℚ),
    (reqs.foldl (fun acc req =>
      if _course_satisfies_requirement course req completed_set then
        (acc.1 ++ [req.id],
         acc.2 + (if req.requirement_type = "REQUIRED" then 10
                  else if req.requirement_type = "CHOICE" then 5 else 2))
      else acc) init).2
    = init.2
      + 10 * ((reqs.countP (fun r => decide (r.requirement_type = "REQUIRED")
              && _course_satisfies_requirement course r completed_set)) : ℚ)
      + 5 * ((reqs.countP (fun r => decide (r.requirement_type = "CHOICE")
              && _course_satisfies_requirement course r completed_set)) : ℚ)
      + 2 * ((reqs.countP (fun r => !decide (r.requirement_type = "REQUIRED")
              && !decide (r.requirement_type = "CHOICE")
              && _course_satisfies_requirement course r completed_set)) : ℚ) := by
  intro reqs
  induction reqs with
  | nil => intro init; simp
  | cons r rs ih =>
    intro init
    simp only [List.foldl_cons, List.countP_cons]
    rw [ih]
    by_cases hs : _course_satisfies_requirement course r completed_set
    · by_cases hR : r.requirement_type = "REQUIRED"
      · simp only [hs, hR, ite_true]
        norm_num
        push_cast
        ring
      · by_cases hCh : r.requirement_type = "CHOICE"
        · simp only [hs, hR, hCh, ite_true, ite_false]
          norm_num
          push_cast
          ring
        · simp only [hs, hR, hCh, ite_true, ite_false]
          norm_num
          ring
    · simp [hs]

/-- The priority score stored in a built entry equals the spec-side score. -/
theorem availableEntry_score (program : Program) (completed_set : List String)
    (course : CourseRec) (pm : Bool) :
    (availableEntry program completed_set course pm).priority_score =
      priorityScoreSpec program.program_requirements completed_set course pm := by
  unfold availableEntry priorityScoreSpec scoreFold
  dsimp only
  rw [scoreFold_snd]
  push_cast
  ring

/-- Every entry of a successful candidate loop is the entry built for some
candidate course. -/
theorem buildAvailable_mem (cat : Catalog) (program : Program)
    (completed : List String) (completed_set : List String) :
    ∀ (l : List CourseRec) (res : List AvailableCourse),
    buildAvailable cat program completed completed_set l = .ok res →
    ∀ a ∈ res, ∃ course ∈ l, ∃ pm,
      a = availableEntry program completed_set course pm := by
  intro l
  induction l with
  | nil =>
    intro res h a ha
    rw [buildAvailable] at h
    injection h with h2
    subst h2
    exact absurd ha (by simp)
  | cons c cs ih =>
    intro res h a ha
    rw [buildAvailable] at h
    cases hpm : prereqMetFor cat completed c.code with
    | error e => rw [hpm] at h; exact absurd h (by simp)
    | ok pm =>
      rw [hpm] at h
      dsimp only at h
      cases hb : buildAvailable cat program completed completed_set cs with
      | error e => rw [hb] at h; exact absurd h (by simp)
      | ok tail =>
        rw [hb] at h
        injection h with h2
        subst h2
        rcases List.mem_cons.mp ha with h1 | h1
        · exact ⟨c, by simp, pm, h1⟩
        · rcases ih tail hb a h1 with ⟨course, hcl, pm2, ha2⟩
          exact ⟨course, by simp [hcl], pm2, ha2⟩

instance : IsTotal AvailableCourse
    (fun a b => b.priority_score ≤ a.priority_score) :=
  ⟨fun a b => le_total b.priority_score a.priority_score⟩

instance : IsTrans AvailableCourse
    (fun a b => b.priority_score ≤ a.priority_score) :=
  ⟨fun _ _ _ h1 h2 => le_trans h2 h1⟩

/-- C8: the list returned by `get_next_available_courses` is sorted by
descending priority score, and every entry's score equals the additive spec
score (10/5/2 per satisfied requirement by type, +3 for prerequisites met,
plus the `(600 − level)/100` boost) for its candidate course, taking the
entry's own `prerequisites_met` flag. -/
theorem claim_C8 (cat : Catalog) (programs : List Program) (pcode : String)
    (completed : List String) (program : Program) (lst : List AvailableCourse)
    (hp : lookupProgram programs pcode = some program)
    (h : get_next_available_courses cat programs pcode completed = .ok lst) :
    List.Sorted (fun a b => b.priority_score ≤ a.priority_score) lst
    ∧ ∀ a ∈ lst, ∃ course, course ∈ cat ∧ a.course_code = course.code
        ∧ a.priority_score = priorityScoreSpec program.program_requirements
            ((completed.map normCode).dedup) course a.prerequisites_met := by
  unfold get_next_available_courses at h
  rw [hp] at h
  dsimp only at h
  split at h
  · injection h with h2
    subst h2
    exact ⟨List.sorted_nil, by simp⟩
  · split at h
    next e heq => simp at h
    next available heq =>
      injection h with h2
      subst h2
      constructor
      · exact List.sorted_insertionSort _ _
      · intro a ha
        have hmem : a ∈ available :=
          (List.perm_insertionSort _ _).mem_iff.mp ha
        rcases buildAvailable_mem cat program completed _ _ available heq a hmem
          with ⟨course, hcl, pm, ha2⟩
        subst ha2
        refine ⟨course, List.mem_of_mem_filter hcl, rfl, ?_⟩
        have hfield : (availableEntry program ((completed.map normCode).dedup)
            course pm).prerequisites_met = pm := rfl
        rw [hfield, availableEntry_score]

deriving instance DecidableEq for AvailableCourse

/-- Witness for C8: a one-requirement program and one candidate course; the
entry scores 10 (REQUIRED) + 3 (prerequisites met) + 4 (level 200) = 17. -/
theorem claim_C8_witness :
    List.Sorted (fun a b : AvailableCourse => b.priority_score ≤ a.priority_score)
      [⟨"B", "Intro", 3, "200", true, ["r1"], 17, ["Fall"]⟩]
    ∧ ∀ a ∈ ([⟨"B", "Intro", 3, "200", true, ["r1"], 17, ["Fall"]⟩] :
        List AvailableCourse),
      ∃ course, course ∈ ([⟨"B", "Intro", 3, "200", "CS", ["Fall"], .empty⟩] : Catalog)
        ∧ a.course_code = course.code
        ∧ a.priority_score = priorityScoreSpec
            [⟨"r1", "Core", "REQUIRED", ["B"], none, none, [], none, 0⟩]
            ((([] : List String).map normCode).dedup) course a.prerequisites_met :=
  claim_C8 [⟨"B", "Intro", 3, "200", "CS", ["Fall"], .empty⟩]
    [⟨"P", "Prog", 120, [⟨"r1", "Core", "REQUIRED", ["B"], none, none, [], none, 0⟩],
      none⟩]
    "P" []
    ⟨"P", "Prog", 120, [⟨"r1", "Core", "REQUIRED", ["B"], none, none, [], none, 0⟩],
      none⟩
    [⟨"B", "Intro", 3, "200", true, ["r1"], 17, ["Fall"]⟩]
    rfl (by with_unfolding_all decide)

deriving instance DecidableEq for ExclusionItem

/-- Characterization of the exclusion pairs produced by `apply_special_rules`:
a (code, warning) pair arises exactly from a dict rule whose uppercased
trigger course is in the normalized input set and an excluded entry whose
uppercased code is also in the set. -/
theorem exclPair_mem (rules : List ExclusionItem) (cset : List String)
    (p : String × String) :
    p ∈ rules.flatMap (fun item =>
      match item with
      | .nonDict => []
      | .rule course0 excludes =>
        let course_a := upperStr course0
        if course_a ∈ cset then
          excludes.filterMap (fun e =>
            let excluded_course := upperStr e
            if excluded_course ∈ cset then
              some (excluded_course, exclusionWarning course_a excluded_course)
            else none)
        else [])
    ↔ ∃ a exc, ExclusionItem.rule a exc ∈ rules ∧ upperStr a ∈ cset ∧
        ∃ e ∈ exc, upperStr e ∈ cset ∧
          p = (upperStr e, exclusionWarning (upperStr a) (upperStr e)) := by
  rw [List.mem_flatMap]
  constructor
  · rintro ⟨item, hitem, hp⟩
    cases item with
    | nonDict =>
      exact absurd hp (by simp)
    | rule a exc =>
      dsimp only at hp
      by_cases ha : upperStr a ∈ cset
      · rw [if_pos ha] at hp
        rcases List.mem_filterMap.mp hp with ⟨e, he, hge⟩
        by_cases hee : upperStr e ∈ cset
        · rw [if_pos hee] at hge
          injection hge with hge
          exact ⟨a, exc, hitem, ha, e, he, hee, hge.symm⟩
        · rw [if_neg hee] at hge
          exact absurd hge (by simp)
      · rw [if_neg ha] at hp
        exact absurd hp (by simp)
  · rintro ⟨a, exc, hitem, ha, e, he, hee, rfl⟩
    refine ⟨.rule a exc, hitem, ?_⟩
    dsimp only
    rw [if_pos ha]
    exact List.mem_filterMap.mpr ⟨e, he, by simp [hee]⟩

/-- C9: `apply_special_rules` adds a code `E` to `excludedCourses` exactly
when some exclusion rule has its (uppercased) trigger course in the normalized
input set and lists a code whose uppercased form is `E`, itself present in the
input set; each such exclusion also produces the warning naming both
courses. An exclusion whose trigger course is absent contributes nothing. -/
theorem claim_C9 (program : Program) (courses : List String) (E : String) :
    (E ∈ (apply_special_rules program courses).excluded_courses ↔
      ∃ a exc, ExclusionItem.rule a exc ∈
          (program.special_rules.getD SpecialRules.emptyRules).exclusions
        ∧ upperStr a ∈ (courses.map normCode).dedup
        ∧ ∃ e ∈ exc, upperStr e = E ∧ E ∈ (courses.map normCode).dedup)
    ∧ (∀ a exc e, ExclusionItem.rule a exc ∈
          (program.special_rules.getD SpecialRules.emptyRules).exclusions →
        upperStr a ∈ (courses.map normCode).dedup →
        e ∈ exc → upperStr e ∈ (courses.map normCode).dedup →
        exclusionWarning (upperStr a) (upperStr e) ∈
          (apply_special_rules program courses).warnings) := by
  constructor
  · show E ∈ List.map Prod.fst _ ↔ _
    rw [List.mem_map]
    constructor
    · rintro ⟨p, hp, hpE⟩
      rcases (exclPair_mem _ _ p).mp hp with ⟨a, exc, hitem, ha, e, he, hee, rfl⟩
      exact ⟨a, exc, hitem, ha, e, he, hpE, hpE ▸ hee⟩
    · rintro ⟨a, exc, hitem, ha, e, he, heE, hE⟩
      refine ⟨(upperStr e, exclusionWarning (upperStr a) (upperStr e)), ?_, heE⟩
      exact (exclPair_mem _ _ _).mpr ⟨a, exc, hitem, ha, e, he, heE ▸ hE, rfl⟩
  · intro a exc e hitem ha he hee
    show _ ∈ List.map Prod.snd _ ++ _
    apply List.mem_append_left
    rw [List.mem_map]
    exact ⟨(upperStr e, exclusionWarning (upperStr a) (upperStr e)),
      (exclPair_mem _ _ _).mpr ⟨a, exc, hitem, ha, e, he, hee, rfl⟩, rfl⟩

/-- Witness for C9: the rule `{course: "A", excludes: ["B"]}` with input
`["A", "B"]` excludes `"B"` and emits the warning naming both. -/
theorem claim_C9_witness :
    "B" ∈ (apply_special_rules
        ⟨"P", "Prog", 120, [], some ⟨[.rule "A" ["B"]], [], []⟩⟩
        ["A", "B"]).excluded_courses
    ∧ exclusionWarning (upperStr "A") (upperStr "B") ∈ (apply_special_rules
        ⟨"P", "Prog", 120, [], some ⟨[.rule "A" ["B"]], [], []⟩⟩
        ["A", "B"]).warnings :=
  ⟨(claim_C9 ⟨"P", "Prog", 120, [], some ⟨[.rule "A" ["B"]], [], []⟩⟩
      ["A", "B"] "B").1.mpr
    ⟨"A", ["B"], by decide, by decide, "B", by decide, by decide, by decide⟩,
   (claim_C9 ⟨"P", "Prog", 120, [], some ⟨[.rule "A" ["B"]], [], []⟩⟩
      ["A", "B"] "B").2 "A" ["B"] "B" (by decide) (by decide) (by decide)
      (by decide)⟩

/-- C10: a program that exists but has zero requirements validates as complete
(the conjunction over requirements is vacuously true) with overall progress 0
and an empty requirements list, for every completed-course input. -/
theorem claim_C10 (cat : Catalog) (programs : List Program) (pcode : String)
    (completed : List String) (program : Program)
    (hp : lookupProgram programs pcode = some program)
    (hreq : program.program_requirements = []) :
    ∃ r, validate_requirements cat programs pcode completed = .ok r
      ∧ r.is_complete = true ∧ r.overall_progress = 0 ∧ r.requirements = [] := by
  unfold validate_requirements
  rw [hp]
  dsimp only
  rw [hreq]
  exact ⟨_, rfl, rfl, rfl, rfl⟩

/-- Witness for C10: a program with an empty requirement list validates to
complete with 0% overall progress. -/
theorem claim_C10_witness :
    ∃ r, validate_requirements [] [⟨"P", "Prog", 120, [], none⟩] "P" ["A"]
        = .ok r
      ∧ r.is_complete = true ∧ r.overall_progress = 0 ∧ r.requirements = [] :=
  claim_C10 [] [⟨"P", "Prog", 120, [], none⟩] "P" ["A"]
    ⟨"P", "Prog", 120, [], none⟩ rfl rfl
